import Mathlib

/-!
Verification of the job-orchestration core of RetroPacker: the process
registry (src/services/ProcessRegistry.ts), the job runner / use case
(ProcessJobUseCase), the queue scheduler (src/hooks/useQueueProcessor.ts)
and the progress parsers, shallowly embedded in Lean.

Registry keys in the source are strings `${workflow}:${jobId}`.  The four
workflow names (compress / extract / verify / info) contain no colon and
none is a prefix of another, so the string key determines and is determined
by the pair (workflow, jobId); we model keys as such pairs.  JavaScript
`Map` / `Set` are modelled as association lists / lists with replace-on-set
and membership semantics.  Asynchronous "fire and forget" termination is
modelled by recording the handle in a `terminated` list at the moment
`terminateProcess` is invoked on it.
-/

/-- The four workflow types (src/domain/types/workflow.types.ts). -/
inductive WorkflowType
  | compress
  | extract
  | verify
  | info
deriving DecidableEq, Repr

/-- Job statuses (src/domain/types/workflow.types.ts). -/
inductive JobStatus
  | pending
  | processing
  | completed
  | failed
deriving DecidableEq, Repr

/-- Compression strategy for CHD creation (workflow.types.ts). -/
inductive CompressionStrategy
  | createcd
  | createdvd
  | raw
deriving DecidableEq, Repr

/-- The string the source stores in `job.strategy`. -/
def CompressionStrategy.toStr : CompressionStrategy → String
  | .createcd => "createcd"
  | .createdvd => "createdvd"
  | .raw => "raw"

/-- Compression presets (settings.types.ts). -/
inductive CompressionPreset
  | balanced
  | max
  | fast
  | raw
  | custom
deriving DecidableEq, Repr

/-- Registry entry key: the pair underlying the string `${workflow}:${jobId}`. -/
abbrev JobKey := WorkflowType × String

/-- A spawned OS process handle (pid plus kill capability). -/
structure SpawnedProc where
  pid : Nat
deriving DecidableEq, Repr

/-- State of the process registry (ProcessRegistry.ts): the live-process
map, the per-job cancelled set, the workflow cancellation latches, and the
set of handles on which asynchronous termination has been fired. -/
structure RegistryState where
  processes : List (JobKey × SpawnedProc)
  cancelledJobs : List JobKey
  cancelledWorkflows : List WorkflowType
  terminated : List SpawnedProc
deriving DecidableEq, Repr

namespace ProcessRegistry

/-- `Map.get` on the live-process table. -/
def lookupProc : List (JobKey × SpawnedProc) → JobKey → Option SpawnedProc
  | [], _ => none
  | (k, p) :: rest, key => if k = key then some p else lookupProc rest key

/-- `Map.set`: replace the entry if the key is present, else append. -/
def setProc : List (JobKey × SpawnedProc) → JobKey → SpawnedProc →
    List (JobKey × SpawnedProc)
  | [], key, p => [(key, p)]
  | (k, q) :: rest, key, p =>
      if k = key then (key, p) :: rest else (k, q) :: setProc rest key p

/-- `Map.delete` on the live-process table. -/
def delProc (l : List (JobKey × SpawnedProc)) (key : JobKey) :
    List (JobKey × SpawnedProc) :=
  l.filter (fun e => e.1 ≠ key)

/-- `ProcessRegistry.register` (ProcessRegistry.ts lines 16-43): store the
handle unless the job is already marked cancelled or the workflow latch is
set, in which case terminate the just-spawned process and do not store it. -/
def register (s : RegistryState) (w : WorkflowType) (jobId : String)
    (p : SpawnedProc) : RegistryState :=
  let key : JobKey := (w, jobId)
  if key ∈ s.cancelledJobs then
    { s with terminated := p :: s.terminated }
  else if w ∈ s.cancelledWorkflows then
    { s with terminated := p :: s.terminated }
  else
    { s with processes := setProc s.processes key p }

/-- `ProcessRegistry.unregister`. -/
def unregister (s : RegistryState) (w : WorkflowType) (jobId : String) :
    RegistryState :=
  { s with processes := delProc s.processes (w, jobId) }

/-- `ProcessRegistry.wasCancelled`. -/
def wasCancelled (s : RegistryState) (w : WorkflowType) (jobId : String) :
    Bool :=
  decide (((w, jobId) : JobKey) ∈ s.cancelledJobs)

/-- `ProcessRegistry.clearCancelled`. -/
def clearCancelled (s : RegistryState) (w : WorkflowType) (jobId : String) :
    RegistryState :=
  { s with cancelledJobs :=
      s.cancelledJobs.filter (fun k => k ≠ ((w, jobId) : JobKey)) }

/-- `ProcessRegistry.cancel` (ProcessRegistry.ts lines 67-94): returns
false and changes nothing when no live process is found; otherwise marks
the job cancelled, removes it from the live table immediately and fires
asynchronous termination. -/
def cancel (s : RegistryState) (w : WorkflowType) (jobId : String) :
    Bool × RegistryState :=
  let key : JobKey := (w, jobId)
  match lookupProc s.processes key with
  | none => (false, s)
  | some p =>
      (true,
        { s with
          cancelledJobs := key :: s.cancelledJobs
          processes := delProc s.processes key
          terminated := p :: s.terminated })

/-- The loop body of `cancelAll`: iterate over a snapshot of the entries,
and for every key of the given workflow mark it cancelled, delete it from
the live table and fire termination. -/
def cancelEntries (w : WorkflowType) :
    List (JobKey × SpawnedProc) → RegistryState → RegistryState
  | [], s => s
  | (k, p) :: rest, s =>
      if k.1 = w then
        cancelEntries w rest
          { s with
            cancelledJobs := k :: s.cancelledJobs
            processes := delProc s.processes k
            terminated := p :: s.terminated }
      else
        cancelEntries w rest s

/-- `ProcessRegistry.cancelAll` (ProcessRegistry.ts lines 96-120): set the
workflow cancellation latch FIRST, then cancel every live entry of the
workflow. -/
def cancelAll (s : RegistryState) (w : WorkflowType) : RegistryState :=
  let s1 := { s with cancelledWorkflows := w :: s.cancelledWorkflows }
  cancelEntries w s1.processes s1

/-- `ProcessRegistry.isWorkflowCancelled`. -/
def isWorkflowCancelled (s : RegistryState) (w : WorkflowType) : Bool :=
  decide (w ∈ s.cancelledWorkflows)

/-- `ProcessRegistry.clearWorkflowCancellation`. -/
def clearWorkflowCancellation (s : RegistryState) (w : WorkflowType) :
    RegistryState :=
  { s with cancelledWorkflows := s.cancelledWorkflows.filter (fun x => x ≠ w) }

end ProcessRegistry

/-- One atomic registry operation, for reasoning about interleavings of
registry calls. -/
inductive RegAction
  | register (w : WorkflowType) (jobId : String) (p : SpawnedProc)
  | unregister (w : WorkflowType) (jobId : String)
  | cancel (w : WorkflowType) (jobId : String)
  | cancelAll (w : WorkflowType)
  | clearCancelled (w : WorkflowType) (jobId : String)
  | clearWorkflowCancellation (w : WorkflowType)
deriving DecidableEq, Repr

/-- Effect of one registry operation on the registry state. -/
def applyRegAction (s : RegistryState) : RegAction → RegistryState
  | .register w j p => ProcessRegistry.register s w j p
  | .unregister w j => ProcessRegistry.unregister s w j
  | .cancel w j => (ProcessRegistry.cancel s w j).2
  | .cancelAll w => ProcessRegistry.cancelAll s w
  | .clearCancelled w j => ProcessRegistry.clearCancelled s w j
  | .clearWorkflowCancellation w => ProcessRegistry.clearWorkflowCancellation s w

/-- Effect of a sequence of registry operations. -/
def applyRegActions (s : RegistryState) (acts : List RegAction) : RegistryState :=
  acts.foldl applyRegAction s

namespace ProcessRegistry

theorem cancelEntries_cancelledWorkflows (w : WorkflowType)
    (l : List (JobKey × SpawnedProc)) (s : RegistryState) :
    (cancelEntries w l s).cancelledWorkflows = s.cancelledWorkflows := by
  induction l generalizing s with
  | nil => rfl
  | cons e rest ih =>
      obtain ⟨k, p⟩ := e
      by_cases h : k.1 = w <;> simp [cancelEntries, h, ih]

theorem mem_cancelledWorkflows_cancelAll (s : RegistryState) (w : WorkflowType) :
    w ∈ (cancelAll s w).cancelledWorkflows := by
  simp [cancelAll, cancelEntries_cancelledWorkflows]

/-- Every registry operation except `clearWorkflowCancellation w` preserves
the workflow-`w` cancellation latch. -/
theorem latch_preserved (s : RegistryState) (w : WorkflowType) (a : RegAction)
    (hw : w ∈ s.cancelledWorkflows)
    (ha : a ≠ RegAction.clearWorkflowCancellation w) :
    w ∈ (applyRegAction s a).cancelledWorkflows := by
  cases a with
  | register w' j p =>
      by_cases h1 : ((w', j) : JobKey) ∈ s.cancelledJobs <;>
        by_cases h2 : w' ∈ s.cancelledWorkflows <;>
          simp [applyRegAction, register, h1, h2, hw]
  | unregister w' j => simpa [applyRegAction, unregister] using hw
  | cancel w' j =>
      simp only [applyRegAction, cancel]
      cases lookupProc s.processes (w', j) <;> simpa using hw
  | cancelAll w' =>
      simp [applyRegAction, cancelAll, cancelEntries_cancelledWorkflows, hw]
  | clearCancelled w' j => simpa [applyRegAction, clearCancelled] using hw
  | clearWorkflowCancellation w' =>
      have hne : w' ≠ w := by
        intro h
        exact ha (by simp [h])
      simp only [applyRegAction, clearWorkflowCancellation, List.mem_filter]
      exact ⟨hw, by simpa using fun h => hne h.symm⟩

/-- The latch survives any sequence of operations that contains no
`clearWorkflowCancellation` for that workflow. -/
theorem latch_preserved_actions (s : RegistryState) (w : WorkflowType)
    (acts : List RegAction) (hw : w ∈ s.cancelledWorkflows)
    (ha : ∀ a ∈ acts, a ≠ RegAction.clearWorkflowCancellation w) :
    w ∈ (applyRegActions s acts).cancelledWorkflows := by
  induction acts generalizing s with
  | nil => simpa [applyRegActions] using hw
  | cons a rest ih =>
      have h1 := latch_preserved s w a hw (ha a (by simp))
      have h2 : ∀ b ∈ rest, b ≠ RegAction.clearWorkflowCancellation w :=
        fun b hb => ha b (by simp [hb])
      simpa [applyRegActions] using ih (applyRegAction s a) h1 h2

/-- `register` under a set latch: nothing is stored, the handle is
terminated. -/
theorem register_latched (s : RegistryState) (w : WorkflowType)
    (j : String) (p : SpawnedProc) (hw : w ∈ s.cancelledWorkflows) :
    (register s w j p).processes = s.processes ∧
      p ∈ (register s w j p).terminated := by
  by_cases h1 : ((w, j) : JobKey) ∈ s.cancelledJobs <;>
    simp [register, h1, hw]

/-- `register` for a job already in the cancelled-jobs set: nothing is
stored, the handle is terminated. -/
theorem register_job_cancelled (s : RegistryState) (w : WorkflowType)
    (j : String) (p : SpawnedProc)
    (hj : ((w, j) : JobKey) ∈ s.cancelledJobs) :
    (register s w j p).processes = s.processes ∧
      p ∈ (register s w j p).terminated := by
  simp [register, hj]

end ProcessRegistry

/-- C1 — Race-closure of workflow-wide cancellation: `cancelAll` sets the
workflow latch first, and the latch survives every subsequent registry
operation other than an explicit `clearWorkflowCancellation` for that
workflow; therefore any `register` for that workflow arriving after
`cancelAll` — under every interleaving of further registry operations —
leaves the live table unchanged (the process is never stored) and fires
termination on the just-spawned handle.  Likewise `register` never stores a
handle whose (workflow, jobId) key is already in the cancelled-jobs set. -/
theorem c1_cancelAll_register_race_closure
    (s : RegistryState) (w : WorkflowType) (acts : List RegAction)
    (j : String) (p : SpawnedProc)
    (ha : ∀ a ∈ acts, a ≠ RegAction.clearWorkflowCancellation w) :
    (ProcessRegistry.register
        (applyRegActions (ProcessRegistry.cancelAll s w) acts) w j p).processes
      = (applyRegActions (ProcessRegistry.cancelAll s w) acts).processes ∧
    p ∈ (ProcessRegistry.register
        (applyRegActions (ProcessRegistry.cancelAll s w) acts) w j p).terminated ∧
    (∀ s2 : RegistryState, ((w, j) : JobKey) ∈ s2.cancelledJobs →
      (ProcessRegistry.register s2 w j p).processes = s2.processes ∧
        p ∈ (ProcessRegistry.register s2 w j p).terminated) := by
  have hlatch : w ∈ (applyRegActions (ProcessRegistry.cancelAll s w)
      acts).cancelledWorkflows :=
    ProcessRegistry.latch_preserved_actions _ w acts
      (ProcessRegistry.mem_cancelledWorkflows_cancelAll s w) ha
  refine ⟨(ProcessRegistry.register_latched _ w j p hlatch).1,
    (ProcessRegistry.register_latched _ w j p hlatch).2,
    fun s2 hj => ProcessRegistry.register_job_cancelled s2 w j p hj⟩

/-- Witness for C1: a concrete workflow with one live process, cancelled
wholesale, followed by an unrelated cancel and an unregister, then a
register attempt for a fresh job of the cancelled workflow. -/
theorem c1_witness :
    (∀ a ∈ [RegAction.cancel WorkflowType.extract "e1",
            RegAction.unregister WorkflowType.compress "job1"],
        a ≠ RegAction.clearWorkflowCancellation WorkflowType.compress) ∧
    (ProcessRegistry.register
        (applyRegActions
          (ProcessRegistry.cancelAll
            { processes := [((WorkflowType.compress, "job1"), ⟨100⟩)],
              cancelledJobs := [], cancelledWorkflows := [], terminated := [] }
            WorkflowType.compress)
          [RegAction.cancel WorkflowType.extract "e1",
           RegAction.unregister WorkflowType.compress "job1"])
        WorkflowType.compress "job2" ⟨101⟩).processes
      = (applyRegActions
          (ProcessRegistry.cancelAll
            { processes := [((WorkflowType.compress, "job1"), ⟨100⟩)],
              cancelledJobs := [], cancelledWorkflows := [], terminated := [] }
            WorkflowType.compress)
          [RegAction.cancel WorkflowType.extract "e1",
           RegAction.unregister WorkflowType.compress "job1"]).processes := by
  refine ⟨by decide, ?_⟩
  exact (c1_cancelAll_register_race_closure
    { processes := [((WorkflowType.compress, "job1"), ⟨100⟩)],
      cancelledJobs := [], cancelledWorkflows := [], terminated := [] }
    WorkflowType.compress
    [RegAction.cancel WorkflowType.extract "e1",
     RegAction.unregister WorkflowType.compress "job1"]
    "job2" ⟨101⟩ (by decide)).1

/-! ## Progress parsing

Two progress parsers exist in the source.  `ProcessJobUseCase.parseProgress`
(the one wired to the job store for chdman jobs) uses the regex
`(?:Compressing|Extracting|Processing),\s+(\d+\.?\d*)%\s+complete` — three
verbs, case-sensitive, comma mandatory.  `TauriCommandExecutor.parseProgress`
uses `(?:Compressing|Extracting|Processing|Verifying),?\s+(\d+\.?\d*)%\s+complete`
with the `i` flag — four verbs, case-insensitive, comma optional.  Both are
unanchored leftmost searches; at every alternation point the greedy strategy
is deterministic (the alternatives begin with distinct letters, digits never
overlap `%` or `.`, and whitespace never overlaps the following literal), so
the straight-line matchers below are faithful to the backtracking regexes.
Numbers are modelled exactly in ℚ (the JS engine uses binary floats; the
values in the claims are exactly representable). -/

/-- The regex character class `\s`, restricted to its ASCII members (the
only ones the tool output contains). -/
def isJsSpace (c : Char) : Bool :=
  c = ' ' || c = '\t' || c = '\n' || c = '\r' ||
    c = Char.ofNat 11 || c = Char.ofNat 12

/-- Strip a literal pattern (first argument) off the input, case-sensitively. -/
def stripLit : List Char → List Char → Option (List Char)
  | [], l => some l
  | _ :: _, [] => none
  | c :: cs, d :: ds => if c = d then stripLit cs ds else none

/-- Strip a literal pattern off the input, case-insensitively (regex `i` flag). -/
def stripLitCI : List Char → List Char → Option (List Char)
  | [], l => some l
  | _ :: _, [] => none
  | c :: cs, d :: ds => if c.toLower = d.toLower then stripLitCI cs ds else none

/-- Greedy `\s+`: at least one whitespace character, then as many as possible. -/
def stripSpaces1 : List Char → Option (List Char)
  | [] => none
  | c :: rest => if isJsSpace c then some (rest.dropWhile isJsSpace) else none

/-- Greedy `(\d+\.?\d*)`: the captured group split as (integer digits,
fraction digits), plus the remaining input. -/
def matchNumber (l : List Char) : Option ((List Char × List Char) × List Char) :=
  let s1 := l.span (fun c => c.isDigit)
  if s1.1.isEmpty then none
  else
    match s1.2 with
    | '.' :: r2 =>
        let s2 := r2.span (fun c => c.isDigit)
        some ((s1.1, s2.1), s2.2)
    | r1 => some ((s1.1, []), r1)

/-- `,\s+(\d+\.?\d*)%\s+complete` when `commaOptional = false` (the use-case
regex), `,?\s+(\d+\.?\d*)%\s+complete` when `commaOptional = true` (the
executor regex); returns the captured group on success. -/
def matchProgressTail (commaOptional : Bool) (r1 : List Char) :
    Option (List Char × List Char) :=
  match r1, commaOptional with
  | ',' :: r2, _ => matchNumberPercentComplete r2
  | r2, true => matchNumberPercentComplete r2
  | _, false => none
where
  matchNumberPercentComplete (r2 : List Char) : Option (List Char × List Char) :=
    match stripSpaces1 r2 with
    | none => none
    | some r3 =>
      match matchNumber r3 with
      | none => none
      | some (ds, r4) =>
        match r4 with
        | '%' :: r5 =>
          match stripSpaces1 r5 with
          | none => none
          | some r6 =>
            match stripLit "complete".data r6 with
            | some _ => some ds
            | none => none
        | _ => none

/-- Decimal digits to a natural number (the integer JS `parseFloat` reads). -/
def digitsToNat (l : List Char) : Nat :=
  l.foldl (fun acc c => 10 * acc + (c.toNat - '0'.toNat)) 0

/-- Exact value of `parseFloat` on a captured group `\d+\.?\d*`. -/
def parsedRat (ds : List Char × List Char) : ℚ :=
  (digitsToNat ds.1 : ℚ) + (digitsToNat ds.2 : ℚ) / (10 : ℚ) ^ ds.2.length

namespace ProcessJobUseCase

/-- `(?:Compressing|Extracting|Processing)`, case-sensitive. -/
def stripVerb (l : List Char) : Option (List Char) :=
  match stripLit "Compressing".data l with
  | some r => some r
  | none =>
    match stripLit "Extracting".data l with
    | some r => some r
    | none => stripLit "Processing".data l

/-- Try the use-case regex at one position. -/
def matchAt (l : List Char) : Option (List Char × List Char) :=
  match stripVerb l with
  | none => none
  | some r1 => matchProgressTail false r1

/-- Leftmost unanchored search of the use-case regex. -/
def scan : List Char → Option (List Char × List Char)
  | [] => none
  | c :: rest =>
    match matchAt (c :: rest) with
    | some v => some v
    | none => scan rest

/-- `ProcessJobUseCase.parseProgress` (src/unnamed/part_007 lines 449-475,
the regex-and-capture part): the percentage extracted from one line of
chdman output, or nothing when the line does not match
`(?:Compressing|Extracting|Processing),\s+(\d+\.?\d*)%\s+complete`. -/
def parseProgress (line : String) : Option ℚ :=
  (scan line.data).map parsedRat

end ProcessJobUseCase

namespace TauriCommandExecutor

/-- `(?:Compressing|Extracting|Processing|Verifying)` under the `i` flag. -/
def stripVerb (l : List Char) : Option (List Char) :=
  match stripLitCI "Compressing".data l with
  | some r => some r
  | none =>
    match stripLitCI "Extracting".data l with
    | some r => some r
    | none =>
      match stripLitCI "Processing".data l with
      | some r => some r
      | none => stripLitCI "Verifying".data l

/-- Try the executor regex at one position. -/
def matchAt (l : List Char) : Option (List Char × List Char) :=
  match stripVerb l with
  | none => none
  | some r1 => matchProgressTail true r1

/-- Leftmost unanchored search of the executor regex. -/
def scan : List Char → Option (List Char × List Char)
  | [] => none
  | c :: rest =>
    match matchAt (c :: rest) with
    | some v => some v
    | none => scan rest

/-- `TauriCommandExecutor.parseProgress`
(src/src/data/repositories/TauriCommandExecutor.ts lines 107-116): the
percentage extracted from one output line by the streaming-contract regex
`(Compressing|Extracting|Processing|Verifying),?\s+(\d+\.?\d*)%\s+complete`
(case-insensitive), or nothing on no match. -/
def parseProgress (line : String) : Option ℚ :=
  (scan line.data).map parsedRat

end TauriCommandExecutor

/-- ETA computation from `ProcessJobUseCase.parseProgress` (part_007 lines
458-467): given the job's recorded start time, the current clock (both in
milliseconds) and the parsed percentage, `etaSeconds` is
`max(0, elapsed/percentage * 100 - elapsed)` with `elapsed` in seconds,
computed only when a (non-zero) start time is recorded and the percentage
is positive.  The JS guard `if (startTime && percentage > 0)` treats a
stored `0` like an absent start time. -/
def computeEtaSeconds (startTime : Option ℚ) (now : ℚ) (percentage : ℚ) :
    Option ℚ :=
  match startTime with
  | none => none
  | some t =>
      if t ≠ 0 ∧ 0 < percentage then
        let elapsedSeconds := (now - t) / 1000
        let totalEst := elapsedSeconds / percentage * 100
        some (max 0 (totalEst - elapsedSeconds))
      else none

/-- C3 counterexample — the line `"Verifying, 42.5% complete"` matches the
claimed pattern (verbs including verifying; witnessed by the
streaming-contract parser extracting 42.5 from it), yet
`ProcessJobUseCase.parseProgress` — the parser that feeds the job store —
returns nothing, because its regex has no `Verifying` alternative, so the
claim is false. -/
theorem c3_counterexample_verifying_line :
    ProcessJobUseCase.parseProgress "Verifying, 42.5% complete" = none ∧
      TauriCommandExecutor.parseProgress "Verifying, 42.5% complete"
        = some (85 / 2) := by
  constructor
  · decide
  · have h : TauriCommandExecutor.scan ("Verifying, 42.5% complete").data
        = some (['4', '2'], ['5']) := by decide
    rw [TauriCommandExecutor.parseProgress, h]
    norm_num [parsedRat, (by decide : digitsToNat ['4', '2'] = 42),
      (by decide : digitsToNat ['5'] = 5)]

/-- C3 (amended) — Progress-line recognition by
`ProcessJobUseCase.parseProgress`: the verbs are Compressing, Extracting
and Processing only, matched case-sensitively, and the comma is mandatory;
a matching line yields the parsed percentage and a non-matching line yields
nothing.  In particular `"Compressing, 42.5% complete... (ratio=88.0%)"`
yields 42.5 and `"Some unrelated text"` yields nothing, while the verb
`Verifying`, a lowercase verb, or a missing comma yield nothing (the
case-insensitive, comma-optional, four-verb pattern lives in
`TauriCommandExecutor.parseProgress` instead). -/
theorem c3_parse_progress_recognition :
    ProcessJobUseCase.parseProgress "Compressing, 42.5% complete... (ratio=88.0%)"
      = some (85 / 2) ∧
    ProcessJobUseCase.parseProgress "Some unrelated text" = none ∧
    ProcessJobUseCase.parseProgress "Extracting, 10% complete" = some 10 ∧
    ProcessJobUseCase.parseProgress "Processing, 99.5% complete" = some (199 / 2) ∧
    ProcessJobUseCase.parseProgress "Verifying, 42.5% complete" = none ∧
    ProcessJobUseCase.parseProgress "compressing, 42.5% complete" = none ∧
    ProcessJobUseCase.parseProgress "Compressing 42.5% complete" = none ∧
    TauriCommandExecutor.parseProgress "verifying 42.5% complete" = some (85 / 2) ∧
    TauriCommandExecutor.parseProgress "Some unrelated text" = none := by
  refine ⟨?_, by decide, ?_, ?_, by decide, by decide, by decide, ?_, by decide⟩
  · have h : ProcessJobUseCase.scan
        ("Compressing, 42.5% complete... (ratio=88.0%)").data
        = some (['4', '2'], ['5']) := by decide
    rw [ProcessJobUseCase.parseProgress, h]
    norm_num [parsedRat, (by decide : digitsToNat ['4', '2'] = 42),
      (by decide : digitsToNat ['5'] = 5)]
  · have h : ProcessJobUseCase.scan ("Extracting, 10% complete").data
        = some (['1', '0'], []) := by decide
    rw [ProcessJobUseCase.parseProgress, h]
    norm_num [parsedRat, (by decide : digitsToNat ['1', '0'] = 10),
      (by decide : digitsToNat ([] : List Char) = 0)]
  · have h : ProcessJobUseCase.scan ("Processing, 99.5% complete").data
        = some (['9', '9'], ['5']) := by decide
    rw [ProcessJobUseCase.parseProgress, h]
    norm_num [parsedRat, (by decide : digitsToNat ['9', '9'] = 99),
      (by decide : digitsToNat ['5'] = 5)]
  · have h : TauriCommandExecutor.scan ("verifying 42.5% complete").data
        = some (['4', '2'], ['5']) := by decide
    rw [TauriCommandExecutor.parseProgress, h]
    norm_num [parsedRat, (by decide : digitsToNat ['4', '2'] = 42),
      (by decide : digitsToNat ['5'] = 5)]

/-- C6 — ETA computation: with a recorded (non-zero) start time and a
positive parsed percentage the ETA is
`max(0, elapsed/percentage * 100 - elapsed)` seconds where
`elapsed = (now - startTime)/1000`; no ETA is produced when the percentage
is 0 or no start time is recorded; and with elapsed 10 s at 50 % the ETA is
10 s. -/
theorem c6_eta_computation :
    (∀ t now p : ℚ, t ≠ 0 → 0 < p →
      computeEtaSeconds (some t) now p
        = some (max 0 ((now - t) / 1000 / p * 100 - (now - t) / 1000))) ∧
    (∀ t now : ℚ, computeEtaSeconds (some t) now 0 = none) ∧
    (∀ now p : ℚ, computeEtaSeconds none now p = none) ∧
    computeEtaSeconds (some 5000) 15000 50 = some 10 := by
  refine ⟨fun t now p ht hp => ?_, fun t now => ?_, fun now p => ?_, ?_⟩
  · simp [computeEtaSeconds, ht, hp]
  · simp [computeEtaSeconds]
  · simp [computeEtaSeconds]
  · simp only [computeEtaSeconds]
    norm_num

/-- Witness for C6: elapsed 10 s (start 5000 ms, now 15000 ms) at 50 %
gives `max 0 (10/50*100 - 10) = 10` seconds. -/
theorem c6_witness :
    computeEtaSeconds (some 5000) 15000 50
      = some (max 0 ((15000 - 5000) / 1000 / 50 * 100 - (15000 - 5000) / 1000)) :=
  c6_eta_computation.1 5000 15000 50 (by norm_num) (by norm_num)

/-! ## Exit finalization (ProcessJobUseCase.execute, onClose callback) -/

/-- Result delivered to the `onClose` callback (Tauri close event:
`code: number | null`, `signal: number | null`). -/
structure CommandResult where
  code : Option Int
  signal : Option Int
deriving DecidableEq, Repr

/-- A notification requested from the notification service. -/
inductive NotificationRequest
  | success (title body : String)
  | failure (title body : String)
deriving DecidableEq, Repr

/-- Partial job update passed to `jobRepository.updateJob` (fields absent
from the partial are `none`). -/
structure JobUpdateF where
  status : Option JobStatus := none
  progress : Option ℚ := none
  etaSeconds : Option ℚ := none
  errorMessage : Option String := none
deriving DecidableEq, Repr

/-- `ProcessJobUseCase.getWorkflowLabel`. -/
def getWorkflowLabel : WorkflowType → String
  | .compress => "Compression"
  | .extract => "Extraction"
  | .verify => "Verification"
  | .info => "Info"

/-- JS template-literal rendering of `result.code : number | null`. -/
def jsIntStr : Option Int → String
  | some c => toString c
  | none => "null"

namespace ProcessJobUseCase

/-- The status/notification decision of the `onClose` callback
(src/unnamed/part_007 lines 147-184), after `unregister`, lock release and
reading the per-job cancellation flag: exit code 0 → completed with
progress 100 / ETA 0 plus a success notification; otherwise cancelled flag
or a signal → failed "Cancelled" with no notification; otherwise → failed
with the exit code in the message plus a failure notification. -/
def finalizeOnClose (workflow : WorkflowType) (filename : String)
    (wasCancelled : Bool) (result : CommandResult) :
    JobUpdateF × Option NotificationRequest :=
  if result.code = some 0 then
    ({ status := some .completed, progress := some 100, etaSeconds := some 0 },
      some (.success (getWorkflowLabel workflow ++ " Completed")
        (filename ++ " has finished processing.")))
  else if wasCancelled = true ∨ result.signal ≠ none then
    ({ status := some .failed, errorMessage := some "Cancelled" }, none)
  else
    ({ status := some .failed,
       errorMessage := some ("Exited with code " ++ jsIntStr result.code) },
      some (.failure (getWorkflowLabel workflow ++ " Failed")
        (filename ++ " failed to process.")))

end ProcessJobUseCase

/-- C5 — Exit finalization: exit code 0 gives completed with progress 100
and ETA 0 and a success notification; a non-zero exit with the per-job
cancellation flag set or a termination signal received gives failed with
reason "Cancelled" and no notification; every other non-zero exit gives
failed with the exit code recorded in the error message and a failure
notification. -/
theorem c5_exit_finalization :
    (∀ (w : WorkflowType) (fn : String) (cancelled : Bool) (signal : Option Int),
      ProcessJobUseCase.finalizeOnClose w fn cancelled ⟨some 0, signal⟩
        = ({ status := some .completed, progress := some 100,
             etaSeconds := some 0 },
          some (.success (getWorkflowLabel w ++ " Completed")
            (fn ++ " has finished processing.")))) ∧
    (∀ (w : WorkflowType) (fn : String) (cancelled : Bool) (c : Int)
        (signal : Option Int), c ≠ 0 →
      (cancelled = true ∨ signal ≠ none) →
      ProcessJobUseCase.finalizeOnClose w fn cancelled ⟨some c, signal⟩
        = ({ status := some .failed, errorMessage := some "Cancelled" }, none)) ∧
    (∀ (w : WorkflowType) (fn : String) (c : Int), c ≠ 0 →
      ProcessJobUseCase.finalizeOnClose w fn false ⟨some c, none⟩
        = ({ status := some .failed,
             errorMessage := some ("Exited with code " ++ toString c) },
          some (.failure (getWorkflowLabel w ++ " Failed")
            (fn ++ " failed to process.")))) := by
  refine ⟨fun w fn cancelled signal => ?_,
    fun w fn cancelled c signal hc hcs => ?_, fun w fn c hc => ?_⟩
  · simp [ProcessJobUseCase.finalizeOnClose]
  · have h0 : (some c : Option Int) ≠ some 0 := by simpa using hc
    simp [ProcessJobUseCase.finalizeOnClose, h0, hcs]
  · have h0 : (some c : Option Int) ≠ some 0 := by simpa using hc
    simp [ProcessJobUseCase.finalizeOnClose, h0, jsIntStr]

/-- Witness for C5: exit code 1 with the cancellation flag set finalizes to
failed / "Cancelled" with no notification. -/
theorem c5_witness :
    ProcessJobUseCase.finalizeOnClose WorkflowType.compress "game.iso" true
        ⟨some 1, none⟩
      = ({ status := some .failed, errorMessage := some "Cancelled" }, none) :=
  c5_exit_finalization.2.1 WorkflowType.compress "game.iso" true 1 none
    (by decide) (Or.inl rfl)

/-! ## chdman argument construction -/

/-- Media type for CHD compression (settings.types.ts); read by the
settings UI, not by `buildChdmanArgs`. -/
inductive MediaType
  | auto
  | cd
  | dvd
  | hdd
  | ld
  | raw
deriving DecidableEq, Repr

/-- CHD-specific settings (settings.types.ts); `hunkSize` absent means
auto-detect. -/
structure ChdSettings where
  hunkSize : Option Nat
  mediaType : MediaType
deriving DecidableEq, Repr

/-- DolphinTool output format (settings.types.ts). -/
inductive DolphinFormat
  | rvz
  | iso
  | gcz
  | wia
deriving DecidableEq, Repr

/-- DolphinTool compression algorithm (settings.types.ts). -/
inductive DolphinCompressionAlgorithm
  | zstd
  | lzma
  | nocomp
deriving DecidableEq, Repr

/-- DolphinTool verification algorithm (settings.types.ts). -/
inductive VerifyAlgorithm
  | md5
  | sha1
  | crc32
deriving DecidableEq, Repr

/-- Dolphin-specific settings (settings.types.ts); only consumed by the
DolphinTool argument builder, which no claim touches. -/
structure DolphinSettings where
  blockSize : Nat
  format : DolphinFormat
  compressionAlgorithm : DolphinCompressionAlgorithm
  scrub : Bool
  verifyAlgorithm : VerifyAlgorithm
  extractGameOnly : Bool
deriving DecidableEq, Repr

/-- Settings context passed to `ProcessJobUseCase.execute`. -/
structure ProcessJobSettings where
  preset : CompressionPreset
  customCompression : String
  chd : ChdSettings
  dolphin : DolphinSettings
deriving DecidableEq, Repr

/-- The fields of `JobProps` read by the argument builders. -/
structure JobRec where
  id : String
  filename : String
  path : String
  system : String
  strategy : CompressionStrategy
deriving DecidableEq, Repr

/-- `fileSystem.joinPath`: join a directory and a file name with the path
separator. -/
def joinPath (dir name : String) : String :=
  dir ++ "/" ++ name

/-- `ProcessJobUseCase.getChdCompressionArgs` (part_007 lines 426-444):
codec list per preset; for `custom` the JS fallback
`customCompression || "lzma,zlib,huff"` replaces an empty custom string by
the balanced default. -/
def getChdCompressionArgs (preset : CompressionPreset)
    (customCompression : String) : List String :=
  match preset with
  | .balanced => ["-c", "lzma,zlib,huff"]
  | .max => ["-c", "lzma"]
  | .fast => ["-c", "zstd"]
  | .raw => ["-c", "none"]
  | .custom =>
      ["-c", if customCompression = "" then "lzma,zlib,huff" else customCompression]

/-- Whether the pattern (first argument) is a prefix of the input. -/
def listStartsWith : List Char → List Char → Bool
  | [], _ => true
  | _ :: _, [] => false
  | c :: cs, d :: ds => c = d && listStartsWith cs ds

/-- `fn.toLowerCase().endsWith(suf)`: lower-case the filename and test the
suffix (character-level model of the JS string operations). -/
def lowerEndsWith (fn suf : String) : Bool :=
  listStartsWith suf.data.reverse ((fn.data.map Char.toLower).reverse)

/-- The else-branch of the hunk-size conditional: the automatic `-hs 2048`
default for PS2 or `.iso` (case-insensitive) inputs. -/
def chdAutoHunkArgs (system filename : String) : List String :=
  if system = "PS2" || lowerEndsWith filename ".iso" then ["-hs", "2048"]
  else []

/-- The hunk-size branch of `buildChdmanArgs` (part_007 lines 292-302):
`if (chd.hunkSize) push("-hs", hunkSize) else if (PS2 || .iso)
push("-hs", "2048")`.  The JS condition is truthiness, so a stored 0 falls
through to the automatic default. -/
def chdHunkArgs (hunkSize : Option Nat) (system filename : String) :
    List String :=
  match hunkSize with
  | some h => if h ≠ 0 then ["-hs", toString h] else chdAutoHunkArgs system filename
  | none => chdAutoHunkArgs system filename

/-- `ProcessJobUseCase.buildChdmanArgs` (part_007 lines 267-340). -/
def buildChdmanArgs (job : JobRec) (outputDir : String)
    (workflow : WorkflowType) (settings : ProcessJobSettings) : List String :=
  match workflow with
  | .compress =>
      [job.strategy.toStr, "-i", job.path, "-o",
        joinPath outputDir (job.filename ++ ".chd")]
        ++ getChdCompressionArgs settings.preset settings.customCompression
        ++ chdHunkArgs settings.chd.hunkSize job.system job.filename
        ++ ["-f"]
  | .extract =>
      if job.strategy = .createdvd then
        ["extractdvd", "-i", job.path, "-o",
          joinPath outputDir (job.filename ++ ".iso"), "-f"]
      else
        ["extractcd", "-i", job.path, "-o",
          joinPath outputDir (job.filename ++ ".cue"), "-ob",
          joinPath outputDir (job.filename ++ ".bin"), "-f"]
  | .verify => ["verify", "-i", job.path]
  | .info => ["info", "-i", job.path]

/-- C9 counterexample — with preset `custom` and an empty custom string the
emitted codec list is the balanced default `lzma,zlib,huff`, not the user's
(empty) custom string, so "custom → the user's custom string" is false as
stated: the full built list carries `-c lzma,zlib,huff` where the claim
demands `-c` followed by the empty string. -/
theorem c9_counterexample_empty_custom_string :
    buildChdmanArgs
        { id := "j1", filename := "game.cue", path := "/in/game.cue",
          system := "PS1", strategy := CompressionStrategy.createcd }
        "/out" WorkflowType.compress
        (ProcessJobSettings.mk CompressionPreset.custom ""
          (ChdSettings.mk none MediaType.auto)
          (DolphinSettings.mk 131072 DolphinFormat.rvz
            DolphinCompressionAlgorithm.zstd false VerifyAlgorithm.md5 false))
      = ["createcd", "-i", "/in/game.cue", "-o", "/out/game.cue.chd",
         "-c", "lzma,zlib,huff", "-f"] ∧
    ("lzma,zlib,huff" : String) ≠ "" := by
  constructor
  · decide
  · decide

/-- C9 (amended) — Compress argument construction for chdman: for every
compress-workflow job the built list is exactly
`<strategy> -i <input> -o <outputDir>/<filename>.chd -c <codec-list>
[-hs <hunkSize>] -f` in that order, with the codec list per preset:
balanced → lzma,zlib,huff, max → lzma, fast → zstd, raw → none, custom →
the user's custom string when non-empty and the balanced default
lzma,zlib,huff when the custom string is empty; the construction is a pure
function of (job, settings, output directory). -/
theorem c9_compress_argument_construction :
    (∀ (job : JobRec) (outputDir : String) (s : ProcessJobSettings),
      buildChdmanArgs job outputDir WorkflowType.compress s
        = [job.strategy.toStr, "-i", job.path, "-o",
            joinPath outputDir (job.filename ++ ".chd")]
          ++ getChdCompressionArgs s.preset s.customCompression
          ++ chdHunkArgs s.chd.hunkSize job.system job.filename
          ++ ["-f"]) ∧
    (∀ cc, getChdCompressionArgs .balanced cc = ["-c", "lzma,zlib,huff"]) ∧
    (∀ cc, getChdCompressionArgs .max cc = ["-c", "lzma"]) ∧
    (∀ cc, getChdCompressionArgs .fast cc = ["-c", "zstd"]) ∧
    (∀ cc, getChdCompressionArgs .raw cc = ["-c", "none"]) ∧
    (∀ cc, cc ≠ "" → getChdCompressionArgs .custom cc = ["-c", cc]) ∧
    getChdCompressionArgs .custom "" = ["-c", "lzma,zlib,huff"] := by
  refine ⟨fun job outputDir s => rfl, fun cc => rfl, fun cc => rfl,
    fun cc => rfl, fun cc => rfl, fun cc hcc => ?_, rfl⟩
  simp [getChdCompressionArgs, hcc]

/-- Witness for C9: a non-empty custom codec string is emitted verbatim. -/
theorem c9_witness :
    getChdCompressionArgs CompressionPreset.custom "zstd" = ["-c", "zstd"] :=
  c9_compress_argument_construction.2.2.2.2.2.1 "zstd" (by decide)

/-- C10 — Implicit hunk-size default: in the compress arguments, when no
(non-zero) hunk size is configured, a job whose detected system is "PS2" or
whose filename ends in ".iso" case-insensitively gets `-hs 2048`; with a
configured non-zero hunk size that value is emitted instead and the
automatic default is not consulted; with no configured hunk size and
neither trigger, no `-hs` pair is emitted (the hunk component is empty). -/
theorem c10_implicit_hunk_size_default :
    (∀ (job : JobRec) (outputDir : String) (s : ProcessJobSettings),
      buildChdmanArgs job outputDir WorkflowType.compress s
        = [job.strategy.toStr, "-i", job.path, "-o",
            joinPath outputDir (job.filename ++ ".chd")]
          ++ getChdCompressionArgs s.preset s.customCompression
          ++ chdHunkArgs s.chd.hunkSize job.system job.filename
          ++ ["-f"]) ∧
    (∀ system fn, system = "PS2" ∨ lowerEndsWith fn ".iso" = true →
      chdHunkArgs none system fn = ["-hs", "2048"]) ∧
    (∀ system fn, system ≠ "PS2" → lowerEndsWith fn ".iso" = false →
      chdHunkArgs none system fn = []) ∧
    (∀ (h : Nat) system fn, h ≠ 0 →
      chdHunkArgs (some h) system fn = ["-hs", toString h]) := by
  refine ⟨fun job outputDir s => rfl, fun system fn hcase => ?_,
    fun system fn h1 h2 => ?_, fun h system fn hh => ?_⟩
  · rcases hcase with h | h <;> simp [chdHunkArgs, chdAutoHunkArgs, h]
  · simp [chdHunkArgs, chdAutoHunkArgs, h1, h2]
  · simp [chdHunkArgs, hh]

/-- Witness for C10: a PS2 job with no configured hunk size gets the
automatic `-hs 2048`; an `.ISO` file does too; a configured 4096 wins. -/
theorem c10_witness :
    chdHunkArgs none "PS2" "game.bin" = ["-hs", "2048"] ∧
    chdHunkArgs none "PSP" "Game.ISO" = ["-hs", "2048"] ∧
    chdHunkArgs (some 4096) "PS2" "game.iso" = ["-hs", "4096"] :=
  ⟨c10_implicit_hunk_size_default.2.1 "PS2" "game.bin" (Or.inl rfl),
    c10_implicit_hunk_size_default.2.1 "PSP" "Game.ISO" (Or.inr (by decide)),
    c10_implicit_hunk_size_default.2.2.2 4096 "PS2" "game.iso" (by decide)⟩

/-! ## Job store, scheduler and job-runner state machine

One workflow's slice of the Zustand job store (`useQueueStore`), together
with the transitions the source performs on it: job creation
(`Job.create` / `addJob`), the scheduler tick of `useQueueProcessor`
(count the `processing` jobs, and when processing is enabled and the count
is below the concurrency limit start the first `pending` job — the
synchronous prefix of `ProcessJobUseCase.execute` marks it processing with
progress 0 and a cleared error), the `useQueueProcessor` catch branch
(first pending job → failed), the per-line progress update of
`parseProgress`, the DolphinTool progress simulation tick (capped at 99),
log appends, the `onClose` / `onError` finalizations, job removal and
queue clearing.  Job ids are unique in the real store (uuid-generated), so
a process event for id `i` targets the one processing job with that id;
the guards below state this as "every job carrying that id is processing".
The UI can also start a job directly (`handleStartJob` in the JobTable,
bypassing the scheduler's concurrency check); this transition is enabled
only when the `allowManual` parameter is true. -/

/-- One job record of the store (the fields the verified transitions
read or write). -/
structure QJob where
  id : String
  status : JobStatus
  progress : ℚ
  errorMessage : Option String
  outputLog : List String
deriving DecidableEq, Repr

/-- One workflow's queue and its processing-enabled flag. -/
structure QState where
  jobs : List QJob
  isProcessing : Bool
deriving DecidableEq, Repr

/-- Number of jobs currently in `processing` state
(`queue.filter(j => j.status === "processing").length`). -/
def countProcessing (l : List QJob) : Nat :=
  (l.filter (fun j => decide (j.status = JobStatus.processing))).length

/-- The start update of `ProcessJobUseCase.execute`:
`{status: "processing", progress: 0, errorMessage: undefined, startTime: now}`. -/
def startJobFields (j : QJob) : QJob :=
  { j with status := JobStatus.processing, progress := 0, errorMessage := none }

/-- The `onClose` success update: `{status: "completed", progress: 100,
etaSeconds: 0}` — the error message is not part of the partial. -/
def completeFields (j : QJob) : QJob :=
  { j with status := JobStatus.completed, progress := 100 }

/-- A failure update `{status: "failed", errorMessage: msg}` (the cancelled
branch uses msg = "Cancelled", the exit branch the exit code, `onError` the
error text). -/
def failFields (msg : String) (j : QJob) : QJob :=
  { j with status := JobStatus.failed, errorMessage := some msg }

/-- The progress update of `parseProgress`: `{progress: percentage, ...}`. -/
def progressFields (p : ℚ) (j : QJob) : QJob :=
  { j with progress := p }

/-- One tick of `startProgressSimulation`: advance towards but never onto
100 (`min(99, progress + increment)`), only when that is an increase. -/
def simProgressFields (inc : ℚ) (j : QJob) : QJob :=
  if j.progress < min 99 (j.progress + inc) then
    { j with progress := min 99 (j.progress + inc) }
  else j

/-- `appendLog`: push one line onto the job's output log. -/
def appendLogField (line : String) (j : QJob) : QJob :=
  { j with outputLog := j.outputLog ++ [line] }

/-- `updateJob(workflow, id, partial)`: map the update over the queue,
touching exactly the jobs with the given id. -/
def updateJobList (l : List QJob) (i : String) (f : QJob → QJob) : List QJob :=
  l.map (fun j => if j.id = i then f j else j)

/-- `queue.find(j => j.status === "pending")` followed by the start update
on that job: mark the first pending job processing. -/
def markFirstPending : List QJob → List QJob
  | [] => []
  | j :: rest =>
      if j.status = JobStatus.pending then startJobFields j :: rest
      else j :: markFirstPending rest

/-- The `useQueueProcessor` catch branch applied to the first pending job:
`{status: "failed", errorMessage: "Could not determine output path or
start job"}`. -/
def failFirstPending : List QJob → List QJob
  | [] => []
  | j :: rest =>
      if j.status = JobStatus.pending then
        failFields "Could not determine output path or start job" j :: rest
      else j :: failFirstPending rest

theorem countProcessing_nil : countProcessing [] = 0 := rfl

theorem countProcessing_append (l1 l2 : List QJob) :
    countProcessing (l1 ++ l2) = countProcessing l1 + countProcessing l2 := by
  simp [countProcessing, List.filter_append]

theorem countProcessing_cons (j : QJob) (l : List QJob) :
    countProcessing (j :: l)
      = (if j.status = JobStatus.processing then 1 else 0) + countProcessing l := by
  by_cases h : j.status = JobStatus.processing <;>
    simp [countProcessing, List.filter_cons, h] <;> omega

theorem markFirstPending_count (l : List QJob) :
    countProcessing (markFirstPending l) ≤ countProcessing l + 1 := by
  induction l with
  | nil => simp [markFirstPending, countProcessing_nil]
  | cons j rest ih =>
      by_cases h : j.status = JobStatus.pending
      · simp only [markFirstPending, h, if_true]
        rw [countProcessing_cons, countProcessing_cons]
        simp [startJobFields, h]
        omega
      · simp only [markFirstPending, h, if_false]
        rw [countProcessing_cons, countProcessing_cons]
        omega

theorem failFirstPending_count (l : List QJob) :
    countProcessing (failFirstPending l) ≤ countProcessing l := by
  induction l with
  | nil => simp [failFirstPending, countProcessing_nil]
  | cons j rest ih =>
      by_cases h : j.status = JobStatus.pending
      · simp only [failFirstPending, h, if_true]
        rw [countProcessing_cons, countProcessing_cons]
        simp [failFields, h]
      · simp only [failFirstPending, h, if_false]
        rw [countProcessing_cons, countProcessing_cons]
        omega

theorem updateJobList_count_le (l : List QJob) (i : String) (f : QJob → QJob)
    (hf : ∀ j : QJob, (f j).status ≠ JobStatus.processing) :
    countProcessing (updateJobList l i f) ≤ countProcessing l := by
  induction l with
  | nil => simp [updateJobList, countProcessing_nil]
  | cons j rest ih =>
      simp only [updateJobList, List.map_cons] at ih ⊢
      rw [countProcessing_cons, countProcessing_cons]
      by_cases h : j.id = i
      · simp only [h, if_true]
        have : ¬ (f j).status = JobStatus.processing := hf j
        simp [this]
        omega
      · simp only [h, if_false]
        omega

theorem updateJobList_count_eq (l : List QJob) (i : String) (f : QJob → QJob)
    (hf : ∀ j : QJob, (f j).status = j.status) :
    countProcessing (updateJobList l i f) = countProcessing l := by
  induction l with
  | nil => simp [updateJobList, countProcessing_nil]
  | cons j rest ih =>
      simp only [updateJobList, List.map_cons] at ih ⊢
      rw [countProcessing_cons, countProcessing_cons]
      by_cases h : j.id = i
      · simp [h, hf j, ih]
      · simp [h, ih]

theorem countProcessing_filter_le (l : List QJob) (p : QJob → Bool) :
    countProcessing (l.filter p) ≤ countProcessing l := by
  induction l with
  | nil => simp [countProcessing_nil]
  | cons j rest ih =>
      rw [countProcessing_cons]
      by_cases h : p j = true
      · rw [List.filter_cons_of_pos h, countProcessing_cons]
        omega
      · rw [List.filter_cons_of_neg (by simpa using h)]
        omega

/-- One observable transition of a workflow's job store, parametrised by
the concurrency limit `K` and by whether direct UI starts (which bypass the
scheduler's concurrency check) are admitted. -/
inductive Step (K : Nat) (allowManual : Bool) : QState → QState → Prop
  | addJob (s : QState) (j : QJob) :
      j.status = JobStatus.pending → j.progress = 0 →
      j.errorMessage = none → j.outputLog = [] →
      Step K allowManual s { s with jobs := s.jobs ++ [j] }
  | setProcessingFlag (s : QState) (b : Bool) :
      Step K allowManual s { s with isProcessing := b }
  | schedulerStart (s : QState) :
      s.isProcessing = true →
      countProcessing s.jobs < K →
      Step K allowManual s { s with jobs := markFirstPending s.jobs }
  | startFailure (s : QState) :
      s.isProcessing = true →
      countProcessing s.jobs < K →
      Step K allowManual s { s with jobs := failFirstPending s.jobs }
  | manualStart (s : QState) (i : String) :
      allowManual = true →
      Step K allowManual s
        { s with jobs := updateJobList s.jobs i startJobFields }
  | progressLine (s : QState) (i line : String) (p : ℚ) :
      (∀ j ∈ s.jobs, j.id = i → j.status = JobStatus.processing) →
      ProcessJobUseCase.parseProgress line = some p →
      Step K allowManual s
        { s with jobs := updateJobList s.jobs i (progressFields p) }
  | simTick (s : QState) (i : String) (inc : ℚ) :
      (∀ j ∈ s.jobs, j.id = i → j.status = JobStatus.processing) →
      Step K allowManual s
        { s with jobs := updateJobList s.jobs i (simProgressFields inc) }
  | appendLine (s : QState) (i line : String) :
      Step K allowManual s
        { s with jobs := updateJobList s.jobs i (appendLogField line) }
  | closeSuccess (s : QState) (i : String) :
      (∀ j ∈ s.jobs, j.id = i → j.status = JobStatus.processing) →
      Step K allowManual s
        { s with jobs := updateJobList s.jobs i completeFields }
  | closeFailed (s : QState) (i msg : String) :
      (∀ j ∈ s.jobs, j.id = i → j.status = JobStatus.processing) →
      Step K allowManual s
        { s with jobs := updateJobList s.jobs i (failFields msg) }
  | removeJob (s : QState) (i : String) :
      Step K allowManual s
        { s with jobs := s.jobs.filter (fun j => j.id ≠ i) }
  | clearQueue (s : QState) :
      Step K allowManual s { s with jobs := [] }

/-- Reachability under `Step`. -/
def Reach (K : Nat) (allowManual : Bool) : QState → QState → Prop :=
  Relation.ReflTransGen (Step K allowManual)

/-- A freshly filled queue: N pending jobs, processing enabled. -/
def initPendingQueue (N : Nat) : QState :=
  { jobs := (List.range N).map
      (fun n => { id := toString n, status := JobStatus.pending, progress := 0,
                  errorMessage := none, outputLog := [] }),
    isProcessing := true }

theorem countProcessing_initPendingQueue (N : Nat) :
    countProcessing (initPendingQueue N).jobs = 0 := by
  simp only [countProcessing, initPendingQueue, List.length_eq_zero]
  rw [List.filter_eq_nil]
  intro j hj
  simp only [List.mem_map] at hj
  obtain ⟨n, hn, rfl⟩ := hj
  simp

/-- Without manual UI starts, every single transition preserves the
concurrency bound. -/
theorem step_preserves_bound (K : Nat) (s t : QState)
    (h : Step K false s t) (hs : countProcessing s.jobs ≤ K) :
    countProcessing t.jobs ≤ K := by
  cases h with
  | addJob j h1 h2 h3 h4 =>
      show countProcessing (s.jobs ++ [j]) ≤ K
      rw [countProcessing_append, countProcessing_cons]
      simp [h1, countProcessing_nil]
      omega
  | setProcessingFlag b => exact hs
  | schedulerStart hflag hcount =>
      show countProcessing (markFirstPending s.jobs) ≤ K
      have := markFirstPending_count s.jobs
      omega
  | startFailure hflag hcount =>
      show countProcessing (failFirstPending s.jobs) ≤ K
      have := failFirstPending_count s.jobs
      omega
  | manualStart i hm => exact absurd hm (by simp)
  | progressLine i line p hguard hparse =>
      show countProcessing (updateJobList s.jobs i (progressFields p)) ≤ K
      rw [updateJobList_count_eq s.jobs i (progressFields p) (fun j => rfl)]
      exact hs
  | simTick i inc hguard =>
      show countProcessing (updateJobList s.jobs i (simProgressFields inc)) ≤ K
      rw [updateJobList_count_eq s.jobs i (simProgressFields inc) (fun j => ?_)]
      · exact hs
      · simp only [simProgressFields]
        by_cases hlt : j.progress < min 99 (j.progress + inc) <;> simp [hlt]
  | appendLine i line =>
      show countProcessing (updateJobList s.jobs i (appendLogField line)) ≤ K
      rw [updateJobList_count_eq s.jobs i (appendLogField line) (fun j => rfl)]
      exact hs
  | closeSuccess i hguard =>
      show countProcessing (updateJobList s.jobs i completeFields) ≤ K
      have := updateJobList_count_le s.jobs i completeFields (fun j => by
        simp [completeFields])
      omega
  | closeFailed i msg hguard =>
      show countProcessing (updateJobList s.jobs i (failFields msg)) ≤ K
      have := updateJobList_count_le s.jobs i (failFields msg) (fun j => by
        simp [failFields])
      omega
  | removeJob i =>
      show countProcessing (s.jobs.filter (fun j => j.id ≠ i)) ≤ K
      have := countProcessing_filter_le s.jobs (fun j => j.id ≠ i)
      omega
  | clearQueue =>
      show countProcessing ([] : List QJob) ≤ K
      simp [countProcessing_nil]

/-- C2 — Bounded concurrency per workflow: starting from a queue of N
pending jobs with any concurrency limit K ≥ 1, along every sequence of
scheduler-driven transitions the number of jobs simultaneously in
`processing` never exceeds K: the scheduler only starts the next pending
job while the processing count is strictly below K, and every other
transition keeps the count the same or lowers it. -/
theorem c2_bounded_concurrency (K N : Nat) (s : QState)
    (hK : 1 ≤ K) (h : Reach K false (initPendingQueue N) s) :
    countProcessing s.jobs ≤ K := by
  induction h with
  | refl =>
      rw [countProcessing_initPendingQueue]
      omega
  | tail hsteps hstep ih => exact step_preserves_bound K _ _ hstep ih

/-- Witness for C2: two queued jobs, limit 1; after one scheduler start the
processing count is within the bound. -/
theorem c2_witness :
    countProcessing
      { initPendingQueue 2 with
          jobs := markFirstPending (initPendingQueue 2).jobs }.jobs ≤ 1 :=
  c2_bounded_concurrency 1 2 _ (by omega)
    (Relation.ReflTransGen.tail Relation.ReflTransGen.refl
      (Step.schedulerStart (initPendingQueue 2) rfl
        (by rw [countProcessing_initPendingQueue]; omega)))

/-- The inductive store invariant for C4: a completed job has progress 100
and no error message, an error message occurs only on failed jobs, and a
processing job carries no error message (the auxiliary fact that makes the
completed case go through, since the success finalization does not touch
the error field). -/
def JobRecordInv (s : QState) : Prop :=
  ∀ j ∈ s.jobs,
    (j.status = JobStatus.completed →
      j.progress = 100 ∧ j.errorMessage = none) ∧
    (j.errorMessage ≠ none → j.status = JobStatus.failed) ∧
    (j.status = JobStatus.processing → j.errorMessage = none)

theorem markFirstPending_mem (l : List QJob) (j : QJob)
    (hj : j ∈ markFirstPending l) :
    j ∈ l ∨ ∃ j0 ∈ l, j = startJobFields j0 := by
  induction l with
  | nil => simp [markFirstPending] at hj
  | cons a rest ih =>
      by_cases h : a.status = JobStatus.pending
      · simp only [markFirstPending, h, if_true, List.mem_cons] at hj
        rcases hj with h1 | h1
        · exact Or.inr ⟨a, by simp, h1⟩
        · exact Or.inl (by simp [h1])
      · simp only [markFirstPending, h, if_false, List.mem_cons] at hj
        rcases hj with h1 | h1
        · exact Or.inl (by simp [h1])
        · rcases ih h1 with h2 | ⟨j0, hj0, hj0e⟩
          · exact Or.inl (by simp [h2])
          · exact Or.inr ⟨j0, by simp [hj0], hj0e⟩

theorem failFirstPending_mem (l : List QJob) (j : QJob)
    (hj : j ∈ failFirstPending l) :
    j ∈ l ∨ ∃ j0 ∈ l,
      j = failFields "Could not determine output path or start job" j0 := by
  induction l with
  | nil => simp [failFirstPending] at hj
  | cons a rest ih =>
      by_cases h : a.status = JobStatus.pending
      · simp only [failFirstPending, h, if_true, List.mem_cons] at hj
        rcases hj with h1 | h1
        · exact Or.inr ⟨a, by simp, h1⟩
        · exact Or.inl (by simp [h1])
      · simp only [failFirstPending, h, if_false, List.mem_cons] at hj
        rcases hj with h1 | h1
        · exact Or.inl (by simp [h1])
        · rcases ih h1 with h2 | ⟨j0, hj0, hj0e⟩
          · exact Or.inl (by simp [h2])
          · exact Or.inr ⟨j0, by simp [hj0], hj0e⟩

theorem updateJobList_mem (l : List QJob) (i : String) (f : QJob → QJob)
    (j : QJob) (hj : j ∈ updateJobList l i f) :
    (j ∈ l) ∨ ∃ j0 ∈ l, j0.id = i ∧ j = f j0 := by
  simp only [updateJobList, List.mem_map] at hj
  obtain ⟨j0, hj0, hj0e⟩ := hj
  by_cases h : j0.id = i
  · refine Or.inr ⟨j0, hj0, h, ?_⟩
    simp only [h, if_true] at hj0e
    exact hj0e.symm
  · simp only [h, if_false] at hj0e
    exact Or.inl (hj0e ▸ hj0)

/-- Every transition preserves the job-record invariant. -/
theorem step_preserves_jobRecordInv (K : Nat) (am : Bool) (s t : QState)
    (h : Step K am s t) (hs : JobRecordInv s) : JobRecordInv t := by
  cases h with
  | addJob j h1 h2 h3 h4 =>
      intro x hx
      simp only [List.mem_append, List.mem_singleton] at hx
      rcases hx with hx | rfl
      · exact hs x hx
      · simp [h1, h3]
  | setProcessingFlag b =>
      intro x hx
      exact hs x hx
  | schedulerStart hflag hcount =>
      intro x hx
      rcases markFirstPending_mem s.jobs x hx with hmem | ⟨j0, hj0, rfl⟩
      · exact hs x hmem
      · simp [startJobFields]
  | startFailure hflag hcount =>
      intro x hx
      rcases failFirstPending_mem s.jobs x hx with hmem | ⟨j0, hj0, rfl⟩
      · exact hs x hmem
      · simp [failFields]
  | manualStart i hm =>
      intro x hx
      rcases updateJobList_mem s.jobs i _ x hx with hmem | ⟨j0, hj0, hid, rfl⟩
      · exact hs x hmem
      · simp [startJobFields]
  | progressLine i line p hguard hparse =>
      intro x hx
      rcases updateJobList_mem s.jobs i _ x hx with hmem | ⟨j0, hj0, hid, rfl⟩
      · exact hs x hmem
      · have hj0p := hguard j0 hj0 hid
        have herr := (hs j0 hj0).2.2 hj0p
        simp [progressFields, hj0p, herr]
  | simTick i inc hguard =>
      intro x hx
      rcases updateJobList_mem s.jobs i _ x hx with hmem | ⟨j0, hj0, hid, rfl⟩
      · exact hs x hmem
      · have hj0p := hguard j0 hj0 hid
        have herr := (hs j0 hj0).2.2 hj0p
        simp only [simProgressFields]
        by_cases hlt : j0.progress < min 99 (j0.progress + inc) <;>
          simp [hlt, hj0p, herr]
  | appendLine i line =>
      intro x hx
      rcases updateJobList_mem s.jobs i _ x hx with hmem | ⟨j0, hj0, hid, rfl⟩
      · exact hs x hmem
      · have hinv := hs j0 hj0
        simpa [appendLogField] using hinv
  | closeSuccess i hguard =>
      intro x hx
      rcases updateJobList_mem s.jobs i _ x hx with hmem | ⟨j0, hj0, hid, rfl⟩
      · exact hs x hmem
      · have hj0p := hguard j0 hj0 hid
        have herr := (hs j0 hj0).2.2 hj0p
        simp [completeFields, herr]
  | closeFailed i msg hguard =>
      intro x hx
      rcases updateJobList_mem s.jobs i _ x hx with hmem | ⟨j0, hj0, hid, rfl⟩
      · exact hs x hmem
      · simp [failFields]
  | removeJob i =>
      intro x hx
      exact hs x (List.mem_of_mem_filter hx)
  | clearQueue =>
      intro x hx
      simp at hx

/-- C4 (amended) — Job-record invariant: in every store state reachable
from the empty queue (manual UI starts included), every completed job has
progress 100 and no error message, and an error message occurs only on
failed jobs.  The third conjunct of the original claim — progress 100 only
when completed — is dropped: a 100%-progress line arriving before process
exit puts a processing job at progress 100 (see the counterexample). -/
theorem c4_job_record_invariant (K : Nat) (am : Bool) (s : QState)
    (h : Reach K am (QState.mk [] false) s) :
    ∀ j ∈ s.jobs,
      (j.status = JobStatus.completed →
        j.progress = 100 ∧ j.errorMessage = none) ∧
      (j.errorMessage ≠ none → j.status = JobStatus.failed) := by
  have hinv : JobRecordInv s := by
    induction h with
    | refl => intro j hj; simp at hj
    | tail hsteps hstep ih => exact step_preserves_jobRecordInv _ _ _ _ hstep ih
  intro j hj
  exact ⟨(hinv j hj).1, (hinv j hj).2.1⟩

/-- C4 counterexample — "progress == 100 only when completed" fails: from
the empty store, add a job, enable processing, let the scheduler start it,
and deliver the tool line "Compressing, 100.0% complete" before the process
exits; the reachable state holds a job with progress 100 whose status is
processing, not completed. -/
theorem c4_counterexample_progress_100_while_processing :
    Reach 1 true (QState.mk [] false)
      (QState.mk [QJob.mk "a" JobStatus.processing 100 none []] true) ∧
    JobStatus.processing ≠ JobStatus.completed := by
  constructor
  · have hp : ProcessJobUseCase.parseProgress "Compressing, 100.0% complete"
        = some 100 := by
      have h : ProcessJobUseCase.scan ("Compressing, 100.0% complete").data
          = some (['1', '0', '0'], ['0']) := by decide
      rw [ProcessJobUseCase.parseProgress, h]
      norm_num [parsedRat, (by decide : digitsToNat ['1', '0', '0'] = 100),
        (by decide : digitsToNat ['0'] = 0)]
    have h1 : Step 1 true (QState.mk [] false)
        (QState.mk [QJob.mk "a" JobStatus.pending 0 none []] false) :=
      Step.addJob (QState.mk [] false)
        (QJob.mk "a" JobStatus.pending 0 none []) rfl rfl rfl rfl
    have h2 : Step 1 true
        (QState.mk [QJob.mk "a" JobStatus.pending 0 none []] false)
        (QState.mk [QJob.mk "a" JobStatus.pending 0 none []] true) :=
      Step.setProcessingFlag _ true
    have h3 : Step 1 true
        (QState.mk [QJob.mk "a" JobStatus.pending 0 none []] true)
        (QState.mk [QJob.mk "a" JobStatus.processing 0 none []] true) :=
      Step.schedulerStart _ rfl (by decide)
    have h4 : Step 1 true
        (QState.mk [QJob.mk "a" JobStatus.processing 0 none []] true)
        (QState.mk [QJob.mk "a" JobStatus.processing 100 none []] true) :=
      Step.progressLine _ "a" "Compressing, 100.0% complete" 100
        (by
          intro j hj hid
          rw [List.mem_singleton] at hj
          subst hj
          rfl)
        hp
    exact Relation.ReflTransGen.tail
      (Relation.ReflTransGen.tail
        (Relation.ReflTransGen.tail
          (Relation.ReflTransGen.tail Relation.ReflTransGen.refl h1) h2) h3) h4
  · decide

/-- Witness for C4: a store that ran one job to successful completion is
reachable, and the invariant instantiated at its completed job yields
progress 100 and no error message. -/
theorem c4_witness :
    (QJob.mk "a" JobStatus.completed 100 none []).progress = 100 ∧
    (QJob.mk "a" JobStatus.completed 100 none []).errorMessage = none := by
  have h1 : Step 1 true (QState.mk [] false)
      (QState.mk [QJob.mk "a" JobStatus.pending 0 none []] false) :=
    Step.addJob (QState.mk [] false)
      (QJob.mk "a" JobStatus.pending 0 none []) rfl rfl rfl rfl
  have h2 : Step 1 true
      (QState.mk [QJob.mk "a" JobStatus.pending 0 none []] false)
      (QState.mk [QJob.mk "a" JobStatus.pending 0 none []] true) :=
    Step.setProcessingFlag _ true
  have h3 : Step 1 true
      (QState.mk [QJob.mk "a" JobStatus.pending 0 none []] true)
      (QState.mk [QJob.mk "a" JobStatus.processing 0 none []] true) :=
    Step.schedulerStart _ rfl (by decide)
  have h4 : Step 1 true
      (QState.mk [QJob.mk "a" JobStatus.processing 0 none []] true)
      (QState.mk [QJob.mk "a" JobStatus.completed 100 none []] true) :=
    Step.closeSuccess _ "a"
      (by
        intro j hj hid
        rw [List.mem_singleton] at hj
        subst hj
        rfl)
  have hreach : Reach 1 true (QState.mk [] false)
      (QState.mk [QJob.mk "a" JobStatus.completed 100 none []] true) :=
    Relation.ReflTransGen.tail
      (Relation.ReflTransGen.tail
        (Relation.ReflTransGen.tail
          (Relation.ReflTransGen.tail Relation.ReflTransGen.refl h1) h2) h3) h4
  exact (c4_job_record_invariant 1 true
    (QState.mk [QJob.mk "a" JobStatus.completed 100 none []] true) hreach
    (QJob.mk "a" JobStatus.completed 100 none []) (by simp)).1 rfl

/-! ## The spawn lock (ProcessJobUseCase.execute, synchronous prefix) -/

/-- Combined state seen by `ProcessJobUseCase.execute` when it is invoked:
the static spawn-lock set (keys `${workflow}:${jobId}`, modelled as pairs),
the process registry, and the job store (entries tagged with their
workflow). -/
structure ExecState where
  spawnLock : List JobKey
  registry : RegistryState
  store : List (WorkflowType × QJob)
deriving DecidableEq, Repr

/-- `jobRepository.updateJob(workflow, id, partial)` on the tagged store. -/
def updateStoreJob (store : List (WorkflowType × QJob)) (w : WorkflowType)
    (i : String) (f : QJob → QJob) : List (WorkflowType × QJob) :=
  store.map (fun e => if e.1 = w ∧ e.2.id = i then (e.1, f e.2) else e)

namespace ProcessJobUseCase

/-- The synchronous prefix of `ProcessJobUseCase.execute` (part_007 lines
74-101): bail out silently when the workflow cancellation latch is set;
bail out silently when the spawn lock for `${workflow}:${jobId}` is already
held; otherwise take the lock and mark the job processing with progress 0
and a cleared error.  The returned flag tells whether execution proceeds
(argument building, the "Starting:" log line and the spawn follow only when
it is true). -/
def executeStart (s : ExecState) (w : WorkflowType) (jobId : String) :
    ExecState × Bool :=
  if ProcessRegistry.isWorkflowCancelled s.registry w = true then (s, false)
  else if ((w, jobId) : JobKey) ∈ s.spawnLock then (s, false)
  else
    ({ spawnLock := ((w, jobId) : JobKey) :: s.spawnLock,
       registry := s.registry,
       store := updateStoreJob s.store w jobId startJobFields }, true)

end ProcessJobUseCase

/-- C7 — Idempotent job start under the spawn lock: whenever the per-job
spawn lock for (workflow, jobId) is already held, a duplicate invocation of
the job runner's execute returns with the combined state — every job's
status, log and progress, the lock set and the registry — literally
unchanged, and does not proceed to spawn a process. -/
theorem c7_duplicate_start_noop (s : ExecState) (w : WorkflowType)
    (jobId : String) (h : ((w, jobId) : JobKey) ∈ s.spawnLock) :
    ProcessJobUseCase.executeStart s w jobId = (s, false) := by
  by_cases hc : ProcessRegistry.isWorkflowCancelled s.registry w = true <;>
    simp [ProcessJobUseCase.executeStart, hc, h]

/-- Witness for C7: a duplicate start of the already-locked compress job
"j1" leaves the lock set, registry and store untouched. -/
theorem c7_witness :
    ProcessJobUseCase.executeStart
      (ExecState.mk [(WorkflowType.compress, "j1")]
        (RegistryState.mk [((WorkflowType.compress, "j1"), SpawnedProc.mk 42)]
          [] [] [])
        [(WorkflowType.compress,
          QJob.mk "j1" JobStatus.processing 0 none ["Starting: chdman"])])
      WorkflowType.compress "j1"
      = (ExecState.mk [(WorkflowType.compress, "j1")]
        (RegistryState.mk [((WorkflowType.compress, "j1"), SpawnedProc.mk 42)]
          [] [] [])
        [(WorkflowType.compress,
          QJob.mk "j1" JobStatus.processing 0 none ["Starting: chdman"])],
        false) :=
  c7_duplicate_start_noop
    (ExecState.mk [(WorkflowType.compress, "j1")]
      (RegistryState.mk [((WorkflowType.compress, "j1"), SpawnedProc.mk 42)]
        [] [] [])
      [(WorkflowType.compress,
        QJob.mk "j1" JobStatus.processing 0 none ["Starting: chdman"])])
    WorkflowType.compress "j1" (by decide)

/-- C8 — Cancel with no live process is a detectable no-op: when the
(workflow, jobId) key has no entry in the live table, `cancel` returns
false and the entire registry state is unchanged — no process terminated,
no cancellation flag added, the live table untouched. -/
theorem c8_cancel_no_live_process_noop
    (s : RegistryState) (w : WorkflowType) (j : String)
    (h : ProcessRegistry.lookupProc s.processes (w, j) = none) :
    ProcessRegistry.cancel s w j = (false, s) := by
  simp [ProcessRegistry.cancel, h]

/-- Witness for C8: cancelling a job that was never registered, in a
registry holding a live process of another job. -/
theorem c8_witness :
    ProcessRegistry.lookupProc
      [((WorkflowType.compress, "other"), ⟨7⟩)]
      (WorkflowType.compress, "ghost") = none ∧
    ProcessRegistry.cancel
      { processes := [((WorkflowType.compress, "other"), ⟨7⟩)],
        cancelledJobs := [], cancelledWorkflows := [], terminated := [] }
      WorkflowType.compress "ghost"
      = (false,
        { processes := [((WorkflowType.compress, "other"), ⟨7⟩)],
          cancelledJobs := [], cancelledWorkflows := [], terminated := [] }) :=
  ⟨by decide,
    c8_cancel_no_live_process_noop
      { processes := [((WorkflowType.compress, "other"), ⟨7⟩)],
        cancelledJobs := [], cancelledWorkflows := [], terminated := [] }
      WorkflowType.compress "ghost" (by decide)⟩
